import Mathlib

/-!
Verification of the DAG-CBOR canonical serializer (src/src/ser.rs).

The serializer is shallowly embedded: the serde value shapes the serializer
can receive become the inductive type `Value`; the serializer methods become
the arms of the function `ser`, which returns the bytes pushed to the real
output sink together with the error, if any.  The cbor4ii encoding
primitives the serializer calls (minimal-width CBOR headers, Null, floats)
are not part of this repository; they are modelled from the spec's output
byte format table.
-/

namespace DagCbor

/-- Byte sequences are lists of naturals; every element produced by the
definitions below is below 256. -/
abbrev Bytes := List Nat

/-- Mirrors `EncodeError::Msg`: the error paths exercised by the claims all
carry a message string. -/
inductive Err where
  | msg (s : String)
deriving DecidableEq, Repr

/-- Message of the non-finite float error in serialize_f64. -/
def errFloat : Err := .msg "Float must be a finite number, not Infinity or NaN"

/-- Message of the i128 range error in serialize_i128. -/
def errI128 : Err := .msg "Integer must be within [-u64::MAX-1, u64::MAX] range"

/-- Message of the u128 range error in serialize_u128. -/
def errU128 : Err := .msg "Unsigned integer must be within [0, u64::MAX] range"

/-- Message substituted by CollectSeq::serialize_element for a failing
buffered list element. -/
def errListElem : Err := .msg "List element cannot be serialized"

/-- Message substituted by SerializeMap::serialize_key for a failing map key. -/
def errMapKey : Err := .msg "Map key cannot be serialized."

/-- Message substituted by SerializeMap::serialize_value for a failing map value. -/
def errMapValue : Err := .msg "Map value cannot be serialized."

/-- Message substituted by CollectMap::serialize for a failing struct field value. -/
def errStructValue : Err := .msg "Struct value cannot be serialized."

/-- Modelled from the spec: cbor4ii's minimal-width CBOR header (major type
in the top three bits, then the shortest additional-information form that
holds the argument).  The cbor4ii crate is a dependency, not under src/. -/
def encHead (major : Nat) (n : Nat) : Bytes :=
  if n < 24 then [32 * major + n]
  else if n < 2 ^ 8 then [32 * major + 24, n]
  else if n < 2 ^ 16 then [32 * major + 25, n / 2 ^ 8, n % 2 ^ 8]
  else if n < 2 ^ 32 then
    [32 * major + 26, n / 2 ^ 24 % 2 ^ 8, n / 2 ^ 16 % 2 ^ 8, n / 2 ^ 8 % 2 ^ 8, n % 2 ^ 8]
  else
    [32 * major + 27, n / 2 ^ 56 % 2 ^ 8, n / 2 ^ 48 % 2 ^ 8, n / 2 ^ 40 % 2 ^ 8,
      n / 2 ^ 32 % 2 ^ 8, n / 2 ^ 24 % 2 ^ 8, n / 2 ^ 16 % 2 ^ 8, n / 2 ^ 8 % 2 ^ 8, n % 2 ^ 8]

/-- Modelled from the spec: cbor4ii's integer encoding, major type 0 for
non-negative values and major type 1 with magnitude -1-v for negatives. -/
def encInt (i : Int) : Bytes :=
  if 0 ≤ i then encHead 0 i.toNat else encHead 1 (-(i + 1)).toNat

/-- Modelled from the spec: a text string is a major type 3 header with the
UTF-8 byte length, then the UTF-8 bytes themselves (strings are carried as
their UTF-8 bytes in this embedding). -/
def encStr (s : Bytes) : Bytes := encHead 3 s.length ++ s

/-- Modelled from the spec: a byte string is a major type 2 header with the
length, then the raw bytes. -/
def encBytes (b : Bytes) : Bytes := encHead 2 b.length ++ b

/-- Modelled from the spec: the canonical Null, major type 7 value 22. -/
def encNull : Bytes := [246]

/-- Modelled from the spec: cbor4ii's bool encoding, major type 7,
values 20 (false) and 21 (true). -/
def encBool (b : Bool) : Bytes := if b then [245] else [244]

/-- Finiteness test on an IEEE-754 binary64 bit pattern: the value is finite
iff the 11-bit exponent field is not all ones.  Mirrors f64::is_finite. -/
def isFinite64 (b : Nat) : Bool := b / 2 ^ 52 % 2 ^ 11 != 2047

/-- Finiteness test on an IEEE-754 binary32 bit pattern: finite iff the
8-bit exponent field is not all ones.  Mirrors f32::is_finite. -/
def isFinite32 (b : Nat) : Bool := b / 2 ^ 23 % 2 ^ 8 != 255

/-- Big-endian bytes of a 64-bit word. -/
def be64 (b : Nat) : Bytes :=
  [b / 2 ^ 56 % 2 ^ 8, b / 2 ^ 48 % 2 ^ 8, b / 2 ^ 40 % 2 ^ 8, b / 2 ^ 32 % 2 ^ 8,
    b / 2 ^ 24 % 2 ^ 8, b / 2 ^ 16 % 2 ^ 8, b / 2 ^ 8 % 2 ^ 8, b % 2 ^ 8]

/-- Modelled from the spec: cbor4ii's f64 encoding, major type 7 additional
info 27 (byte 251) followed by the eight big-endian bytes of the bit
pattern. -/
def encF64 (b : Nat) : Bytes := 251 :: be64 b

/-- The IEEE-754 binary32 to binary64 widening conversion (Rust's
f64::from(f32)) on bit patterns: sign copied, exponent re-biased from 127
to 1023 (subnormals are normalised using the position of their leading
mantissa bit), mantissa extended from 23 to 52 bits, and the all-ones
exponent (infinities and NaNs) mapped to the all-ones 64-bit exponent. -/
def widenBits (b : Nat) : Nat :=
  let s := b / 2 ^ 31 % 2
  let e := b / 2 ^ 23 % 2 ^ 8
  let m := b % 2 ^ 23
  if e = 255 then s * 2 ^ 63 + 2047 * 2 ^ 52 + m * 2 ^ 29
  else if e = 0 then
    if m = 0 then s * 2 ^ 63
    else
      s * 2 ^ 63 + (Nat.log2 m + 874) * 2 ^ 52 + (m - 2 ^ Nat.log2 m) * 2 ^ (52 - Nat.log2 m)
  else s * 2 ^ 63 + (e + 896) * 2 ^ 52 + m * 2 ^ 29

/-- Shared body of serialize_f64 (also reached by serialize_f32 after
widening): reject non-finite values before writing anything, else emit the
64-bit float encoding. -/
def serF64 (b : Nat) : Bytes × Option Err :=
  if isFinite64 b then (encF64 b, none) else ([], some errFloat)

/-- The serde value shapes the serializer in src/src/ser.rs can receive,
one constructor per serialize_* entry point exercised by the claims.
Strings (text, field names, variant names) are carried as UTF-8 bytes. -/
inductive Value where
  | vbool (b : Bool)
  | vu64 (n : Nat)
  | vi64 (i : Int)
  | vu128 (n : Nat)
  | vi128 (i : Int)
  | vf32 (bits : Nat)
  | vf64 (bits : Nat)
  | vstr (s : Bytes)
  | vbytes (b : Bytes)
  | vnone
  | vsome (v : Value)
  | vunit
  | vunitStruct (name : Bytes)
  | vunitVariant (variant : Bytes)
  | vnewtypeStruct (name : Bytes) (v : Value)
  | vnewtypeVariant (variant : Bytes) (v : Value)
  | vseq (len : Option Nat) (es : List Value)
  | vtuple (es : List Value)
  | vtupleVariant (variant : Bytes) (es : List Value)
  | vmap (es : List (Value × Value))
  | vstruct (fields : List (Bytes × Value))
  | vstructVariant (variant : Bytes) (fields : List (Bytes × Value))

/-- A collected map entry: already-encoded key bytes and value bytes, as in
CollectMap's entries vector. -/
abbrev Entry := Bytes × Bytes

/-- Bytewise lexicographic comparison of byte sequences, as Rust's
Ord for Vec of u8 (used by the CollectMap sort comparator): compare
left-to-right by byte value, a strict shared-prefix sequence comes first. -/
def lexLe : Bytes → Bytes → Bool
  | [], _ => true
  | _ :: _, [] => false
  | a :: as, b :: bs => if a < b then true else if b < a then false else lexLe as bs

/-- Ordering of collected entries by key bytes only, the comparator passed
to sort_unstable_by in CollectMap::end. -/
def keyLe (p q : Entry) : Prop := lexLe p.1 q.1 = true

instance : DecidableRel keyLe := fun p q =>
  inferInstanceAs (Decidable (lexLe p.1 q.1 = true))

/-- The CollectMap::end sort: order entries by bytewise lexicographic
comparison of key bytes only.  The source calls Rust's sort_unstable_by;
this embedding uses insertion sort with the same comparator, which agrees
with the source whenever the key byte sequences are pairwise distinct (an
unstable sort fixes no order between equal keys). -/
def sortEntries (ps : List Entry) : List Entry := List.insertionSort keyLe ps

/-- Emission of the sorted entries in CollectMap::end: for each pair the
full key bytes then the full value bytes. -/
def flattenPairs (ps : List Entry) : Bytes := ps.flatMap (fun p => p.1 ++ p.2)

mutual

/-- Shallow embedding of the serializer in src/src/ser.rs: one arm per
serialize_* method, mapping a value to the bytes it pushes to the real
output sink and the error, if any (on an error the bytes are the prefix the
real sink already received before the failure). -/
def ser : Value → Bytes × Option Err
  | .vbool b => (encBool b, none)
  | .vu64 n => (encHead 0 n, none)
  | .vi64 i => (encInt i, none)
  | .vu128 n =>
    if 2 ^ 64 - 1 < n then ([], some errU128) else (encHead 0 n, none)
  | .vi128 i =>
    if ¬(i ≤ 2 ^ 64 - 1 ∧ -(2 ^ 64) ≤ i) then ([], some errI128) else (encInt i, none)
  | .vf32 bits => serF64 (widenBits bits)
  | .vf64 bits => serF64 bits
  | .vstr s => (encStr s, none)
  | .vbytes b => (encBytes b, none)
  | .vnone => (encNull, none)
  | .vsome v => ser v
  | .vunit => (encNull, none)
  | .vunitStruct _ => (encNull, none)
  | .vunitVariant variant => (encStr variant, none)
  | .vnewtypeStruct _ v => ser v
  | .vnewtypeVariant variant v =>
    let r := ser v
    (encHead 5 1 ++ encStr variant ++ r.1, r.2)
  | .vseq (some n) es =>
    let r := serList es
    (encHead 4 n ++ r.1, r.2)
  | .vseq none es =>
    match serList es with
    | (_, some _) => ([], some errListElem)
    | (b, none) => (encHead 4 es.length ++ b, none)
  | .vtuple es =>
    let r := serList es
    (encHead 4 es.length ++ r.1, r.2)
  | .vtupleVariant variant es =>
    let r := serList es
    (encHead 5 1 ++ encStr variant ++ encHead 4 es.length ++ r.1, r.2)
  | .vmap es =>
    match serEntries es with
    | .error e => ([], some e)
    | .ok ps => (encHead 5 ps.length ++ flattenPairs (sortEntries ps), none)
  | .vstruct fields =>
    match serFields fields with
    | .error e => (encHead 5 fields.length, some e)
    | .ok ps => (encHead 5 fields.length ++ flattenPairs (sortEntries ps), none)
  | .vstructVariant variant fields =>
    match serFields fields with
    | .error e => (encHead 5 1 ++ encStr variant ++ encHead 5 fields.length, some e)
    | .ok ps =>
      (encHead 5 1 ++ encStr variant ++ encHead 5 fields.length ++ flattenPairs (sortEntries ps),
        none)

/-- Elements streamed to a sink in order, stopping at the first failing
element and keeping the bytes written before the failure (the shared
element loop of SerializeSeq, SerializeTuple and SerializeTupleVariant). -/
def serList : List Value → Bytes × Option Err
  | [] => ([], none)
  | v :: vs =>
    match ser v with
    | (b, some e) => (b, some e)
    | (b, none) =>
      let r := serList vs
      (b ++ r.1, r.2)

/-- The generic-map collection loop (SerializeMap::serialize_key and
serialize_value): each key and value is encoded into its scratch buffer; a
failing key or value aborts with the substituted message, a completed pair
is appended to the entries vector. -/
def serEntries : List (Value × Value) → Except Err (List Entry)
  | [] => .ok []
  | (k, v) :: rest =>
    match ser k with
    | (_, some _) => .error errMapKey
    | (kb, none) =>
      match ser v with
      | (_, some _) => .error errMapValue
      | (vb, none) => (serEntries rest).map (fun ps => (kb, vb) :: ps)

/-- The named-field collection loop (CollectMap::serialize with a static
key): the field name is encoded as a text-string key, the value into the
value scratch buffer; a failing value aborts with the substituted
message. -/
def serFields : List (Bytes × Value) → Except Err (List Entry)
  | [] => .ok []
  | (name, v) :: rest =>
    match ser v with
    | (_, some _) => .error errStructValue
    | (vb, none) => (serFields rest).map (fun ps => (encStr name, vb) :: ps)

end

/-- The ordered list of (key bytes, value bytes) pairs a map-shaped value
emits after its header: the collected entries after the CollectMap::end
sort.  Returns none for non-map values and failed collections. -/
def emittedEntries : Value → Option (List Entry)
  | .vmap es => (serEntries es).toOption.map sortEntries
  | .vstruct fields => (serFields fields).toOption.map sortEntries
  | .vstructVariant _ fields => (serFields fields).toOption.map sortEntries
  | _ => none

/-! Order-theoretic facts about the bytewise lexicographic comparison. -/

theorem lexLe_total (a b : Bytes) : lexLe a b = true ∨ lexLe b a = true := by
  induction a generalizing b with
  | nil => left; rfl
  | cons x xs ih =>
    cases b with
    | nil => right; rfl
    | cons y ys =>
      simp only [lexLe]
      rcases Nat.lt_trichotomy x y with h | rfl | h
      · left; simp [h]
      · simpa [Nat.lt_irrefl] using ih ys
      · right; simp [h, Nat.lt_asymm h]

theorem lexLe_trans {a b c : Bytes} (h1 : lexLe a b = true) (h2 : lexLe b c = true) :
    lexLe a c = true := by
  induction a generalizing b c with
  | nil => rfl
  | cons x xs ih =>
    cases b with
    | nil => simp [lexLe] at h1
    | cons y ys =>
      cases c with
      | nil => simp [lexLe] at h2
      | cons z zs =>
        simp only [lexLe] at h1 h2 ⊢
        rcases Nat.lt_trichotomy x y with hxy | rfl | hxy
        · rcases Nat.lt_trichotomy y z with hyz | rfl | hyz
          · simp [Nat.lt_trans hxy hyz]
          · simp [hxy]
          · simp [Nat.lt_asymm hyz, hyz] at h2
        · rcases Nat.lt_trichotomy x z with hxz | rfl | hxz
          · simp [hxz]
          · simp only [Nat.lt_irrefl, if_false] at h1 h2 ⊢
            exact ih h1 h2
          · simp [Nat.lt_asymm hxz, hxz] at h2
        · simp [Nat.lt_asymm hxy, hxy] at h1

theorem lexLe_antisymm {a b : Bytes} (h1 : lexLe a b = true) (h2 : lexLe b a = true) :
    a = b := by
  induction a generalizing b with
  | nil =>
    cases b with
    | nil => rfl
    | cons y ys => simp [lexLe] at h2
  | cons x xs ih =>
    cases b with
    | nil => simp [lexLe] at h1
    | cons y ys =>
      simp only [lexLe] at h1 h2
      rcases Nat.lt_trichotomy x y with hxy | rfl | hxy
      · simp [Nat.lt_asymm hxy, hxy] at h2
      · simp only [Nat.lt_irrefl, if_false] at h1 h2
        rw [ih h1 h2]
      · simp [Nat.lt_asymm hxy, hxy] at h1

instance : IsTotal Entry keyLe := ⟨fun a b => lexLe_total a.1 b.1⟩

instance : IsTrans Entry keyLe := ⟨fun _ _ _ h1 h2 => lexLe_trans h1 h2⟩

theorem sortEntries_sorted (ps : List Entry) : List.Sorted keyLe (sortEntries ps) :=
  List.sorted_insertionSort keyLe ps

theorem sortEntries_perm (ps : List Entry) : (sortEntries ps).Perm ps :=
  List.perm_insertionSort keyLe ps

/-- Two key-sorted entry lists that are permutations of one another and
whose key byte sequences are pairwise distinct are equal: sorting by key
bytes alone determines the emission order. -/
theorem sorted_perm_eq_of_nodup_keys :
    ∀ {l1 l2 : List Entry}, l1.Perm l2 → List.Sorted keyLe l1 → List.Sorted keyLe l2 →
      (l1.map Prod.fst).Nodup → l1 = l2 := by
  intro l1
  induction l1 with
  | nil =>
    intro l2 hp _ _ _
    exact hp.nil_eq
  | cons a l1 ih =>
    intro l2 hp hs1 hs2 hnd
    cases l2 with
    | nil =>
      have := hp.length_eq
      simp at this
    | cons b l2 =>
      have ha2 : a ∈ b :: l2 := hp.subset (List.mem_cons_self a l1)
      have hb1 : b ∈ a :: l1 := hp.symm.subset (List.mem_cons_self b l2)
      have hab : a = b := by
        rcases List.mem_cons.mp hb1 with h | hbl1
        · exact h.symm
        rcases List.mem_cons.mp ha2 with h | hal2
        · exact h
        have hkab : keyLe a b := (List.sorted_cons.mp hs1).1 b hbl1
        have hkba : keyLe b a := (List.sorted_cons.mp hs2).1 a hal2
        have hkey : a.1 = b.1 := lexLe_antisymm hkab hkba
        exfalso
        have hmem : a.1 ∈ l1.map Prod.fst := by
          rw [hkey]; exact List.mem_map_of_mem Prod.fst hbl1
        have hnd' : a.1 ∉ l1.map Prod.fst := by
          simp only [List.map_cons, List.nodup_cons] at hnd
          exact hnd.1
        exact hnd' hmem
      subst hab
      have htail : l1 = l2 := by
        apply ih hp.cons_inv hs1.of_cons hs2.of_cons
        simp only [List.map_cons, List.nodup_cons] at hnd
        exact hnd.2
      rw [htail]

/-! Facts about the generic-map collection loop. -/

/-- Collecting one more pair succeeds exactly when key, value and the rest
all serialize, and then prepends the encoded pair. -/
theorem serEntries_cons_ok {k v : Value} {rest : List (Value × Value)} {ps : List Entry} :
    serEntries ((k, v) :: rest) = .ok ps ↔
      ∃ kb vb tail, ser k = (kb, none) ∧ ser v = (vb, none) ∧ serEntries rest = .ok tail ∧
        ps = (kb, vb) :: tail := by
  constructor
  · intro h
    simp only [serEntries] at h
    cases hk : ser k with
    | mk kb ke =>
      rw [hk] at h
      cases ke with
      | some e0 => simp at h
      | none =>
        cases hv : ser v with
        | mk vb ve =>
          rw [hv] at h
          cases ve with
          | some e0 => simp at h
          | none =>
            cases hrest : serEntries rest with
            | error e0 => rw [hrest] at h; simp [Except.map] at h
            | ok tail =>
              rw [hrest] at h
              simp only [Except.map, Except.ok.injEq] at h
              exact ⟨kb, vb, tail, rfl, rfl, rfl, h.symm⟩
  · rintro ⟨kb, vb, tail, hk, hv, hrest, rfl⟩
    simp [serEntries, hk, hv, hrest, Except.map]

theorem serEntries_length : ∀ {es : List (Value × Value)} {ps : List Entry},
    serEntries es = .ok ps → ps.length = es.length := by
  intro es
  induction es with
  | nil =>
    intro ps h
    simp only [serEntries, Except.ok.injEq] at h
    rw [← h]
    rfl
  | cons e rest ih =>
    intro ps h
    obtain ⟨k, v⟩ := e
    obtain ⟨kb, vb, tail, _, _, hrest, rfl⟩ := serEntries_cons_ok.mp h
    simp [ih hrest]

/-- Collection is entrywise: permuting the supplied entries permutes the
collected pairs (when collection succeeds). -/
theorem serEntries_perm : ∀ {es es' : List (Value × Value)}, es.Perm es' →
    ∀ {ps}, serEntries es = .ok ps → ∃ ps', serEntries es' = .ok ps' ∧ ps.Perm ps' := by
  intro es es' hp
  induction hp with
  | nil =>
    intro ps h
    exact ⟨ps, h, List.Perm.refl ps⟩
  | cons x hp ih =>
    intro ps h
    obtain ⟨k, v⟩ := x
    obtain ⟨kb, vb, tail, hk, hv, hrest, rfl⟩ := serEntries_cons_ok.mp h
    obtain ⟨tail', hrest', htp⟩ := ih hrest
    exact ⟨(kb, vb) :: tail',
      serEntries_cons_ok.mpr ⟨kb, vb, tail', hk, hv, hrest', rfl⟩, htp.cons (kb, vb)⟩
  | swap x y l =>
    intro ps h
    obtain ⟨k1, v1⟩ := y
    obtain ⟨k2, v2⟩ := x
    obtain ⟨kb1, vb1, tail1, hk1, hv1, hrest1, rfl⟩ := serEntries_cons_ok.mp h
    obtain ⟨kb2, vb2, tail2, hk2, hv2, hrest2, rfl⟩ := serEntries_cons_ok.mp hrest1
    refine ⟨(kb2, vb2) :: (kb1, vb1) :: tail2,
      serEntries_cons_ok.mpr ⟨kb2, vb2, (kb1, vb1) :: tail2, hk2, hv2,
        serEntries_cons_ok.mpr ⟨kb1, vb1, tail2, hk1, hv1, hrest2, rfl⟩, rfl⟩, ?_⟩
    exact List.Perm.swap (kb2, vb2) (kb1, vb1) tail2
  | trans hp1 hp2 ih1 ih2 =>
    intro ps h
    obtain ⟨ps1, h1, hperm1⟩ := ih1 h
    obtain ⟨ps2, h2, hperm2⟩ := ih2 h1
    exact ⟨ps2, h2, hperm1.trans hperm2⟩

/-! Claim theorems. -/

/-- C1: for every map or struct encoded by the map collector (generic maps,
structs, struct variants, arbitrarily nested and of any size), the key byte
sequences in emission order are non-decreasing under bytewise lexicographic
comparison, and the serializer really emits exactly those pairs after some
header prefix. -/
theorem emitted_map_keys_sorted (v : Value) (ps : List Entry)
    (h : emittedEntries v = some ps) :
    List.Chain' keyLe ps ∧ ∃ pre, ser v = (pre ++ flattenPairs ps, none) := by
  cases v <;> simp only [emittedEntries] at h <;> try exact Option.noConfusion h
  case vmap es =>
    rcases hse : serEntries es with e | ps0 <;> rw [hse] at h
    · simp [Except.toOption] at h
    · have hps : sortEntries ps0 = ps := by simpa [Except.toOption] using h
      rw [← hps]
      exact ⟨List.chain'_iff_pairwise.mpr (sortEntries_sorted ps0),
        encHead 5 ps0.length, by simp [ser, hse]⟩
  case vstruct fields =>
    rcases hse : serFields fields with e | ps0 <;> rw [hse] at h
    · simp [Except.toOption] at h
    · have hps : sortEntries ps0 = ps := by simpa [Except.toOption] using h
      rw [← hps]
      exact ⟨List.chain'_iff_pairwise.mpr (sortEntries_sorted ps0),
        encHead 5 fields.length, by simp [ser, hse]⟩
  case vstructVariant variant fields =>
    rcases hse : serFields fields with e | ps0 <;> rw [hse] at h
    · simp [Except.toOption] at h
    · have hps : sortEntries ps0 = ps := by simpa [Except.toOption] using h
      rw [← hps]
      exact ⟨List.chain'_iff_pairwise.mpr (sortEntries_sorted ps0),
        encHead 5 1 ++ encStr variant ++ encHead 5 fields.length, by simp [ser, hse]⟩

/-- Witness for C1 at a concrete two-entry map supplied in reverse key
order. -/
theorem emitted_map_keys_sorted_witness :
    List.Chain' keyLe [([97, 97], [1]), ([97, 98], [2])] ∧
      ∃ pre, ser (.vmap [(.vstr [98], .vu64 2), (.vstr [97], .vu64 1)]) =
        (pre ++ flattenPairs [([97, 97], [1]), ([97, 98], [2])], none) :=
  emitted_map_keys_sorted
    (Value.vmap [(Value.vstr [98], Value.vu64 2), (Value.vstr [97], Value.vu64 1)])
    [([97, 97], [1]), ([97, 98], [2])] (by rfl)

/-- C2: encoding is a function of the logical value, not of presentation
order: permuting the entries fed to a generic map (with pairwise distinct
encoded keys) leaves the output bytes unchanged, and the concrete struct
with fields declared b, a encodes to the same bytes as the generic map with
entries a, b inserted in that order. -/
theorem map_encoding_order_independent :
    (∀ (es es' : List (Value × Value)) (ps : List Entry),
        es.Perm es' → serEntries es = .ok ps → (ps.map Prod.fst).Nodup →
        ser (.vmap es) = ser (.vmap es'))
    ∧ ser (.vstruct [([98], .vi64 2), ([97], .vi64 1)]) =
        ser (.vmap [(.vstr [97], .vi64 1), (.vstr [98], .vi64 2)]) := by
  constructor
  · intro es es' ps hp h hnd
    obtain ⟨ps', h', hps⟩ := serEntries_perm hp h
    have hlen : ps.length = ps'.length := hps.length_eq
    have hsort : sortEntries ps = sortEntries ps' := by
      apply sorted_perm_eq_of_nodup_keys
      · exact (sortEntries_perm ps).trans (hps.trans (sortEntries_perm ps').symm)
      · exact sortEntries_sorted ps
      · exact sortEntries_sorted ps'
      · have hpk : ((sortEntries ps).map Prod.fst).Perm (ps.map Prod.fst) :=
          (sortEntries_perm ps).map Prod.fst
        exact hpk.nodup_iff.mpr hnd
    simp [ser, h, h', hsort, hlen]
  · decide

/-- Witness for C2 at the two-entry map from the spec scenario, supplied in
both orders. -/
theorem map_encoding_order_independent_witness :
    ser (.vmap [(.vstr [97], .vu64 1), (.vstr [98], .vu64 2)]) =
      ser (.vmap [(.vstr [98], .vu64 2), (.vstr [97], .vu64 1)]) :=
  map_encoding_order_independent.1
    [(Value.vstr [97], Value.vu64 1), (Value.vstr [98], Value.vu64 2)]
    [(Value.vstr [98], Value.vu64 2), (Value.vstr [97], Value.vu64 1)]
    [([97, 97], [1]), ([97, 98], [2])]
    (List.Perm.swap (Value.vstr [98], Value.vu64 2) (Value.vstr [97], Value.vu64 1) [])
    (by rfl) (by decide)

/-- C3: the generic-map header written at end carries exactly the number of
collected (and emitted) pairs, one per supplied entry; the deferred
sequence header written at end carries exactly the number of elements that
were serialized into the scratch buffer; and no header byte the encoder can
produce is an indefinite-length header (additional information 31). -/
theorem headers_state_exact_counts :
    (∀ (es : List (Value × Value)) (ps : List Entry), serEntries es = .ok ps →
        ser (.vmap es) = (encHead 5 ps.length ++ flattenPairs (sortEntries ps), none)
        ∧ (sortEntries ps).length = ps.length ∧ ps.length = es.length)
    ∧ (∀ (es : List Value) (b : Bytes), serList es = (b, none) →
        ser (.vseq none es) = (encHead 4 es.length ++ b, none))
    ∧ (∀ major n, ∃ hd tl, encHead major n = hd :: tl ∧ hd % 32 ≠ 31) := by
  refine ⟨fun es ps h => ⟨by simp [ser, h], (sortEntries_perm ps).length_eq,
    serEntries_length h⟩, fun es b h => by simp [ser, h], fun major n => ?_⟩
  unfold encHead
  split_ifs with h1 h2 h3 h4
  · exact ⟨32 * major + n, [], rfl, by omega⟩
  · exact ⟨32 * major + 24, [n], rfl, by omega⟩
  · exact ⟨32 * major + 25, _, rfl, by omega⟩
  · exact ⟨32 * major + 26, _, rfl, by omega⟩
  · exact ⟨32 * major + 27, _, rfl, by omega⟩

/-- Witness for C3 at a concrete one-entry map and a concrete two-element
deferred sequence. -/
theorem headers_state_exact_counts_witness :
    (ser (.vmap [(.vstr [107], .vu64 7)]) =
        (encHead 5 1 ++ flattenPairs (sortEntries [([97, 107], [7])]), none))
    ∧ ser (.vseq none [.vu64 1, .vu64 2]) = (encHead 4 2 ++ [1, 2], none) :=
  ⟨(headers_state_exact_counts.1 [(Value.vstr [107], Value.vu64 7)]
      [([97, 107], [7])] (by rfl)).1,
    headers_state_exact_counts.2.1 [Value.vu64 1, Value.vu64 2] [1, 2] (by rfl)⟩

/-- C4: a sequence whose length is unknown up front (buffered in the
scratch sink, counted, header written at end) produces exactly the bytes of
the same sequence encoded with the element count known up front, provided
every element serializes. -/
theorem unknown_len_seq_eq_known (es : List Value) (h : (serList es).2 = none) :
    ser (.vseq none es) = ser (.vseq (some es.length) es) := by
  cases hr : serList es with
  | mk b e =>
    rw [hr] at h
    cases e with
    | some e0 => simp at h
    | none => simp [ser, hr]

/-- Witness for C4 at the spec scenario sequence 1, 2, 3. -/
theorem unknown_len_seq_eq_known_witness :
    (serList [.vu64 1, .vu64 2, .vu64 3]).2 = none
    ∧ ser (.vseq none [.vu64 1, .vu64 2, .vu64 3]) =
        ser (.vseq (some [Value.vu64 1, .vu64 2, .vu64 3].length) [.vu64 1, .vu64 2, .vu64 3]) :=
  ⟨by decide, unknown_len_seq_eq_known [.vu64 1, .vu64 2, .vu64 3] (by decide)⟩

/-- C5: serialize_i128 fails exactly outside the closed interval from
-(2 pow 64) to 2 pow 64 - 1 and serialize_u128 fails exactly above
2 pow 64 - 1; every accepted value with a 64-bit counterpart produces the
very bytes of that 64-bit serialization. -/
theorem serialize_128_matches_64 :
    (∀ i : Int,
        ((ser (.vi128 i)).2 = none ↔ -(2 ^ 64) ≤ i ∧ i ≤ 2 ^ 64 - 1)
        ∧ (0 ≤ i → i ≤ 2 ^ 64 - 1 → ser (.vi128 i) = ser (.vu64 i.toNat))
        ∧ (-(2 ^ 63) ≤ i → i < 0 → ser (.vi128 i) = ser (.vi64 i)))
    ∧ (∀ n : Nat,
        ((ser (.vu128 n)).2 = none ↔ n ≤ 2 ^ 64 - 1)
        ∧ (n ≤ 2 ^ 64 - 1 → ser (.vu128 n) = ser (.vu64 n))) := by
  refine ⟨fun i => ⟨?_, ?_, ?_⟩, fun n => ⟨?_, ?_⟩⟩
  · simp only [ser]
    by_cases hc : i ≤ 2 ^ 64 - 1 ∧ -(2 ^ 64) ≤ i
    · rw [if_neg (not_not_intro hc)]
      exact ⟨fun _ => ⟨hc.2, hc.1⟩, fun _ => rfl⟩
    · rw [if_pos hc]
      exact ⟨fun h => Option.noConfusion h, fun h => absurd ⟨h.2, h.1⟩ hc⟩
  · intro h0 h1
    have hc : i ≤ 2 ^ 64 - 1 ∧ -(2 ^ 64) ≤ i := ⟨h1, by omega⟩
    simp only [ser]
    rw [if_neg (not_not_intro hc)]
    simp only [encInt]
    rw [if_pos h0]
  · intro hmin hneg
    have hc : i ≤ 2 ^ 64 - 1 ∧ -(2 ^ 64) ≤ i := ⟨by omega, by omega⟩
    simp only [ser]
    rw [if_neg (not_not_intro hc)]
  · simp only [ser]
    by_cases hc : 2 ^ 64 - 1 < n
    · rw [if_pos hc]
      exact ⟨fun h => Option.noConfusion h, fun h => absurd h (by omega)⟩
    · rw [if_neg hc]
      exact ⟨fun _ => by omega, fun _ => rfl⟩
  · intro h
    have hc : ¬2 ^ 64 - 1 < n := by omega
    simp only [ser]
    rw [if_neg hc]

/-- Witness for C5: the in-range boundary values match their 64-bit
serializations (2 pow 64 - 1 as u128 against u64, and -1 as i128 against
i64). -/
theorem serialize_128_matches_64_witness :
    ser (.vu128 (2 ^ 64 - 1)) = ser (.vu64 (2 ^ 64 - 1))
    ∧ ser (.vi128 (-1)) = ser (.vi64 (-1)) :=
  ⟨(serialize_128_matches_64.2 (2 ^ 64 - 1)).2 (by omega),
    (serialize_128_matches_64.1 (-1)).2.2 (by omega) (by omega)⟩

/-- The binary32 to binary64 widening conversion maps finite bit patterns
to finite bit patterns and non-finite ones (exponent all ones) to
non-finite ones. -/
theorem isFinite_widenBits (b : Nat) : isFinite64 (widenBits b) = isFinite32 b := by
  rw [Bool.eq_iff_iff]
  simp only [isFinite64, isFinite32, widenBits, bne_iff_ne, ne_eq, not_iff_not]
  by_cases he255 : b / 2 ^ 23 % 2 ^ 8 = 255
  · rw [if_pos he255]
    omega
  · rw [if_neg he255]
    by_cases he0 : b / 2 ^ 23 % 2 ^ 8 = 0
    · rw [if_pos he0]
      by_cases hm0 : b % 2 ^ 23 = 0
      · rw [if_pos hm0]
        omega
      · rw [if_neg hm0]
        obtain ⟨p, hpdef⟩ : ∃ p, Nat.log2 (b % 2 ^ 23) = p := ⟨_, rfl⟩
        have hp1 : 2 ^ p ≤ b % 2 ^ 23 := hpdef ▸ Nat.log2_self_le hm0
        have hp2 : b % 2 ^ 23 < 2 ^ (p + 1) := by
          rw [← hpdef]
          exact (Nat.log2_lt hm0).mp (Nat.lt_succ_self _)
        have hp3 : p < 23 := by
          rw [← hpdef]
          exact (Nat.log2_lt hm0).mpr (Nat.mod_lt _ (by norm_num))
        rw [hpdef]
        interval_cases p <;> omega
    · rw [if_neg he0]
      omega

/-- C6: serialize_f64 fails exactly on non-finite bit patterns and then
writes nothing; serialize_f32 is exactly serialize_f64 of the widened
argument (widening preserves finiteness), so every successfully encoded
float is emitted in the 64-bit form. -/
theorem serialize_float_spec :
    (∀ bits : Nat,
        ((ser (.vf64 bits)).2 = none ↔ isFinite64 bits = true)
        ∧ (isFinite64 bits = false → ser (.vf64 bits) = ([], some errFloat))
        ∧ (isFinite64 bits = true → ser (.vf64 bits) = (encF64 bits, none)))
    ∧ (∀ bits : Nat, ser (.vf32 bits) = ser (.vf64 (widenBits bits)))
    ∧ (∀ bits : Nat, isFinite64 (widenBits bits) = isFinite32 bits)
    ∧ (∀ bits : Nat,
        (ser (.vf32 bits)).2 = none → (ser (.vf32 bits)).1 = encF64 (widenBits bits)) := by
  refine ⟨fun bits => ⟨?_, ?_, ?_⟩, fun bits => rfl, isFinite_widenBits, fun bits h => ?_⟩
  · simp only [ser, serF64]
    cases hf : isFinite64 bits <;> simp
  · intro hf
    simp [ser, serF64, hf]
  · intro hf
    simp [ser, serF64, hf]
  · simp only [ser, serF64] at h ⊢
    cases hf : isFinite64 (widenBits bits)
    · rw [hf] at h
      simp at h
    · simp [hf]

/-- Witness for C6: positive infinity (exponent all ones, zero mantissa)
is rejected; the bit pattern of 1.0 is encoded in 64-bit form. -/
theorem serialize_float_spec_witness :
    ser (.vf64 (2047 * 2 ^ 52)) = ([], some errFloat)
    ∧ ser (.vf64 4607182418800017408) = (encF64 4607182418800017408, none) :=
  ⟨(serialize_float_spec.1 (2047 * 2 ^ 52)).2.1 (by decide),
    (serialize_float_spec.1 4607182418800017408).2.2 (by decide)⟩

/-- C7 counterexample: a NaN payload fails with the non-finite float error,
but a map containing it at a value position reports the collector's generic
message instead, so the child's error does not propagate unchanged to the
top-level caller. -/
theorem child_error_not_propagated_unchanged :
    ser (.vf64 (2047 * 2 ^ 52 + 1)) = ([], some errFloat)
    ∧ ser (.vmap [(.vstr [97], .vf64 (2047 * 2 ^ 52 + 1))]) = ([], some errMapValue)
    ∧ errMapValue ≠ errFloat :=
  ⟨by decide, by decide, by decide⟩

/-- C7 amended: any child failure immediately aborts the enclosing
aggregate (the collected scratch state and any later siblings never reach
the sink, with no retry or partial-success reporting) and an error reaches
the top-level caller; the direct-streaming paths (Option, newtype variants,
tuples, known-length sequences) forward the child's error unchanged, while
the buffering collectors substitute their generic message for it. -/
theorem child_error_aborts_aggregate (v k : Value) (e : Err) (kb nm : Bytes) (n : Nat)
    (rest : List Value) (erest : List (Value × Value)) (frest : List (Bytes × Value))
    (hv : (ser v).2 = some e) (hk : ser k = (kb, none)) :
    (ser (.vsome v)).2 = some e
    ∧ (ser (.vnewtypeVariant nm v)).2 = some e
    ∧ (ser (.vtuple (v :: rest))).2 = some e
    ∧ (ser (.vseq (some n) (v :: rest))).2 = some e
    ∧ (ser (.vseq none (v :: rest))).2 = some errListElem
    ∧ (ser (.vmap ((k, v) :: erest))).2 = some errMapValue
    ∧ (ser (.vmap ((v, k) :: erest))).2 = some errMapKey
    ∧ (ser (.vstruct ((nm, v) :: frest))).2 = some errStructValue := by
  cases hsv : ser v with
  | mk vb ve =>
    rw [hsv] at hv
    simp only at hv
    subst hv
    refine ⟨by simp [ser, hsv], by simp [ser, hsv], ?_, ?_, ?_, ?_, ?_, ?_⟩
    · simp [ser, serList, hsv]
    · simp [ser, serList, hsv]
    · simp [ser, serList, hsv]
    · simp [ser, serEntries, hsv, hk]
    · simp [ser, serEntries, hsv]
    · simp [ser, serFields, hsv]

/-- Witness for C7 amended, with a NaN float as the failing child and a
trivially succeeding key. -/
theorem child_error_aborts_aggregate_witness :
    ((ser (.vf64 (2047 * 2 ^ 52 + 2))).2 = some errFloat)
    ∧ ser (.vu64 0) = ([0], none)
    ∧ ((ser (.vsome (.vf64 (2047 * 2 ^ 52 + 2)))).2 = some errFloat
        ∧ (ser (.vnewtypeVariant [97] (.vf64 (2047 * 2 ^ 52 + 2)))).2 = some errFloat
        ∧ (ser (.vtuple [.vf64 (2047 * 2 ^ 52 + 2)])).2 = some errFloat
        ∧ (ser (.vseq (some 1) [.vf64 (2047 * 2 ^ 52 + 2)])).2 = some errFloat
        ∧ (ser (.vseq none [.vf64 (2047 * 2 ^ 52 + 2)])).2 = some errListElem
        ∧ (ser (.vmap [(.vu64 0, .vf64 (2047 * 2 ^ 52 + 2))])).2 = some errMapValue
        ∧ (ser (.vmap [(.vf64 (2047 * 2 ^ 52 + 2), .vu64 0)])).2 = some errMapKey
        ∧ (ser (.vstruct [([97], .vf64 (2047 * 2 ^ 52 + 2))])).2 = some errStructValue) :=
  ⟨by decide, by decide,
    child_error_aborts_aggregate (Value.vf64 (2047 * 2 ^ 52 + 2)) (Value.vu64 0) errFloat
      [0] [97] 1 [] [] [] (by decide) (by decide)⟩

/-- C9: serialize_none, serialize_unit and serialize_unit_struct each emit
exactly the one-byte canonical Null (major type 7, value 22), never the
empty-array header, so unit and None encode identically. -/
theorem unit_and_none_encode_null :
    ser .vnone = (encNull, none)
    ∧ ser .vunit = (encNull, none)
    ∧ (∀ nm : Bytes, ser (.vunitStruct nm) = (encNull, none))
    ∧ ser .vunit = ser .vnone
    ∧ encNull = [32 * 7 + 22]
    ∧ encNull ≠ encHead 4 0 :=
  ⟨rfl, rfl, fun _ => rfl, rfl, rfl, by decide⟩

/-- C10: serialize_some and serialize_newtype_struct are transparent: they
produce exactly the bytes of the inner value (so Option nesting is not
injective, Some of None encoding identically to None). -/
theorem some_and_newtype_transparent :
    (∀ v : Value, ser (.vsome v) = ser v)
    ∧ (∀ (nm : Bytes) (v : Value), ser (.vnewtypeStruct nm v) = ser v)
    ∧ (∀ v : Value, ser (.vsome (.vsome v)) = ser v)
    ∧ ser (.vsome .vnone) = ser .vnone :=
  ⟨fun _ => rfl, fun _ _ => rfl, fun _ => rfl, rfl⟩

end DagCbor
